import Mathlib

/-
Verification of the PPTX image-extraction pipeline (img_ppt.py, descpgen.py,
main.py) via a shallow embedding.  Paths and other character data are modelled
as `List Char`; filesystem state as a list of existing paths; exceptions of
external calls (zip reads, image decoding, network APIs, OS errors) as boolean
or inductive oracles supplied per call site.  File writes are modelled as
atomic: a write either fully succeeds or raises.
-/

namespace PptPipeline

/-! ## Character-list string helpers (models of the Python str/os.path operations used) -/

abbrev PStr := List Char

/-- Model of `str.lower` restricted to ASCII, which is all the code compares. -/
def lowerL (s : PStr) : PStr := s.map Char.toLower

/-- `startsWithL pat s` models Python `s.startswith(pat)`. -/
def startsWithL : PStr → PStr → Bool
  | [], _ => true
  | _ :: _, [] => false
  | a :: as, b :: bs => a == b && startsWithL as bs

/-- `endsWithL pat s` models Python `s.endswith(pat)`. -/
def endsWithL (pat s : PStr) : Bool := startsWithL pat.reverse s.reverse

/-- `containsSub pat s` models Python `pat in s` (substring containment). -/
def containsSub (pat : PStr) : PStr → Bool
  | [] => startsWithL pat []
  | c :: rest => startsWithL pat (c :: rest) || containsSub pat rest

/-- Does the string start with a forward slash? -/
def startsSlash : PStr → Bool
  | [] => false
  | c :: _ => c == '/'

/-- Does the string end with a forward slash? -/
def endsSlash (s : PStr) : Bool := startsSlash s.reverse

/-- `hasDD s` is true when `s` contains two consecutive forward slashes. -/
def hasDD : PStr → Bool
  | a :: b :: rest => (a == '/' && b == '/') || hasDD (b :: rest)
  | _ => false

/-- All characters distinct from `/`. -/
def noSlashB (s : PStr) : Bool := s.all (fun c => !(c == '/'))

/-- Model of `posixpath.basename`: the part after the last `/`. -/
def basenameL (p : PStr) : PStr := (p.reverse.takeWhile (fun c => !(c == '/'))).reverse

/-- Model of `posixpath.dirname`, expressed on the reversed list: everything
before the last `/` (`head`), with trailing slashes stripped unless the head
consists only of slashes.  `p.reverse.dropWhile (!(· == '/'))` is the reverse
of the head. -/
def dirnameL (p : PStr) : PStr :=
  if p.reverse.dropWhile (fun c => !(c == '/')) = [] then []
  else if (p.reverse.dropWhile (fun c => !(c == '/'))).all (fun c => c == '/') then
    (p.reverse.dropWhile (fun c => !(c == '/'))).reverse
  else ((p.reverse.dropWhile (fun c => !(c == '/'))).dropWhile (fun c => c == '/')).reverse

/-- Model of the stem part of `posixpath.splitext` applied to a basename:
the extension starts at the last dot, except that a name consisting of an
extension alone (all characters before the last dot are dots) is not split. -/
def splitextStem (b : PStr) : PStr :=
  match b.reverse.dropWhile (fun c => !(c == '.')) with
  | '.' :: stemRev => if stemRev.any (fun c => !(c == '.')) then stemRev.reverse else b
  | _ => b

/-- Model of the extension part of `posixpath.splitext` applied to a basename
(including the leading dot, or empty). -/
def splitextExt (b : PStr) : PStr :=
  match b.reverse.dropWhile (fun c => !(c == '.')) with
  | '.' :: stemRev =>
      if stemRev.any (fun c => !(c == '.')) then
        ('.' :: (b.reverse.takeWhile (fun c => !(c == '.'))).reverse)
      else []
  | _ => []

/-- Model of `ntpath.basename` as used on Windows for plain file names: the part
after the last `/` or `\`. -/
def ntBasenameL (p : PStr) : PStr :=
  (p.reverse.takeWhile (fun c => !(c == '/') && !(c == '\\'))).reverse

/-- Model of `posixpath.join` for two components. -/
def pathJoin (a b : PStr) : PStr :=
  if startsSlash b then b
  else if a = [] then b
  else if endsSlash a then a ++ b
  else a ++ '/' :: b

/-! ## C6/C9: outcome of the entry checks of `extract_images_from_ppt` (img_ppt.py 34-52, 165-168)

The function body past the zip opening is irrelevant to these claims; the
environment facts "the path exists" and "the file is a valid zip container" are
oracles.  `Pillow` is modelled as installed (the deployment asserts it). -/

/-- Possible outcomes of the entry checks of `extract_images_from_ppt`. -/
inductive ExtractOutcome where
  | valueError : ExtractOutcome
  | fileNotFoundError : ExtractOutcome
  | badZipLogged : ExtractOutcome
  | proceeds : ExtractOutcome
deriving DecidableEq, Repr

/-- Does the outcome raise an exception to the caller? `badZipLogged` does not:
`zipfile.BadZipFile` is caught at img_ppt.py line 165 and only printed. -/
def raisesToCaller : ExtractOutcome → Bool
  | .valueError => true
  | .fileNotFoundError => true
  | .badZipLogged => false
  | .proceeds => false

/-- Model of the entry checks of `extract_images_from_ppt` (img_ppt.py lines
38-42 plus the `except zipfile.BadZipFile` handler at 165-166).  Identical
checks appear in descpgen.py lines 227-230 and 352-353. -/
def extract_entry_outcome (ppt_path : PStr) (pathExists validZip : Bool) : ExtractOutcome :=
  if ¬ endsWithL (".pptx").toList (lowerL ppt_path) then .valueError
  else if ¬ pathExists then .fileNotFoundError
  else if ¬ validZip then .badZipLogged
  else .proceeds

/-- C6 counterexample: a path ending in `.pptx` that exists but is not a valid
zip container does not make the reader fail with a ValueError: the BadZipFile
is caught and logged and the function returns normally. -/
theorem C6_counterexample :
    extract_entry_outcome ("a.pptx").toList true false = ExtractOutcome.badZipLogged ∧
    raisesToCaller (extract_entry_outcome ("a.pptx").toList true false) = false ∧
    extract_entry_outcome ("a.pptx").toList true false ≠ ExtractOutcome.valueError := by
  decide

/-- C6 (amended): the archive reader fails with a ValueError when the path does
not end in `.pptx`, fails with a FileNotFoundError when the path ends in
`.pptx` but does not exist, and when the path ends in `.pptx` and exists but is
not a valid zip container it catches the BadZipFile, logs it and returns
normally without raising. -/
theorem C6_amended_reader_errors (ppt_path : PStr) (pathExists validZip : Bool) :
    (endsWithL (".pptx").toList (lowerL ppt_path) = false →
      extract_entry_outcome ppt_path pathExists validZip = ExtractOutcome.valueError) ∧
    (endsWithL (".pptx").toList (lowerL ppt_path) = true → pathExists = false →
      extract_entry_outcome ppt_path pathExists validZip = ExtractOutcome.fileNotFoundError) ∧
    (endsWithL (".pptx").toList (lowerL ppt_path) = true → pathExists = true → validZip = false →
      extract_entry_outcome ppt_path pathExists validZip = ExtractOutcome.badZipLogged ∧
      raisesToCaller (extract_entry_outcome ppt_path pathExists validZip) = false) := by
  unfold extract_entry_outcome
  refine ⟨fun h => ?_, fun h h' => ?_, fun h h' h'' => ?_⟩ <;>
    rw [h] <;> simp_all [raisesToCaller]

/-- C6 witness: the amended theorem applied at concrete inputs. -/
theorem C6_amended_reader_errors_witness :
    extract_entry_outcome ("notes.txt").toList false true = ExtractOutcome.valueError ∧
    extract_entry_outcome ("deck.pptx").toList false true = ExtractOutcome.fileNotFoundError ∧
    extract_entry_outcome ("deck.pptx").toList true false = ExtractOutcome.badZipLogged := by
  refine ⟨(C6_amended_reader_errors ("notes.txt").toList false true).1 (by decide),
    (C6_amended_reader_errors ("deck.pptx").toList false true).2.1 (by decide) rfl,
    ((C6_amended_reader_errors ("deck.pptx").toList true false).2.2 (by decide) rfl rfl).1⟩

/-- C9: the suffix check runs before the existence check, so a path that does
not end in `.pptx` raises ValueError regardless of whether it exists — never
FileNotFoundError. -/
theorem C9_suffix_before_existence (ppt_path : PStr) (pathExists validZip : Bool)
    (h : endsWithL (".pptx").toList (lowerL ppt_path) = false) :
    extract_entry_outcome ppt_path pathExists validZip = ExtractOutcome.valueError ∧
    extract_entry_outcome ppt_path pathExists validZip ≠ ExtractOutcome.fileNotFoundError := by
  unfold extract_entry_outcome
  rw [h]
  simp

/-- C9 witness: a nonexistent path with the wrong suffix gets ValueError. -/
theorem C9_suffix_before_existence_witness :
    extract_entry_outcome ("missing.ppt").toList false true = ExtractOutcome.valueError ∧
    extract_entry_outcome ("missing.ppt").toList false true ≠ ExtractOutcome.fileNotFoundError :=
  C9_suffix_before_existence ("missing.ppt").toList false true (by decide)


/-! ## C2: the slide-media map (img_ppt.py 47-84, descpgen.py 234-262)

A relationship descriptor file is modelled by the slide number parsed from its
name and the ordered list of its `Relationship` elements; each element carries
the optional `Type` and `Target` attributes.  The descriptor list is given in
`namelist()` order, exactly as the code iterates it.  The Python dict is
modelled as an association list extended at the end, so the model also keeps
insertion order. -/

/-- Association-list lookup with decidable key equality (dict lookup model). -/
def lookupL (m : List (PStr × Nat)) (k : PStr) : Option Nat :=
  match m with
  | [] => none
  | (k', v) :: rest => if k' = k then some v else lookupL rest k

structure RelEntry where
  relType : Option PStr
  target : Option PStr

structure RelFile where
  slideNumber : Nat
  rels : List RelEntry

/-- The media path recorded for one `Relationship` element: requires a type
attribute containing "image" (which forces it nonempty, subsuming the
truthiness test) and a nonempty target; the target's basename is joined under
the fixed media prefix (img_ppt.py 71-77). -/
def relMediaPath? (r : RelEntry) : Option PStr :=
  match r.relType, r.target with
  | some t, some tgt =>
      if containsSub ("image").toList t ∧ tgt ≠ [] then
        some (("ppt/media/").toList ++ basenameL tgt)
      else none
  | _, _ => none

/-- Model of `if full_media_path not in image_to_slide_map: map[path] = n`
(img_ppt.py 78-79). -/
def insertIfAbsent (m : List (PStr × Nat)) (k : PStr) (v : Nat) : List (PStr × Nat) :=
  if (lookupL m k).isSome then m else m ++ [(k, v)]

/-- Processing of one relationship descriptor file. -/
def addRelFile (m : List (PStr × Nat)) (rf : RelFile) : List (PStr × Nat) :=
  rf.rels.foldl
    (fun m r =>
      match relMediaPath? r with
      | some p => insertIfAbsent m p rf.slideNumber
      | none => m) m

/-- The slide-media map built over all descriptor files in encounter order. -/
def buildSlideMap (rfs : List RelFile) : List (PStr × Nat) :=
  rfs.foldl addRelFile []

/-- Follows the spec's words for the refinement comparison: the slide number of
the first-encountered descriptor referencing the media path. -/
def firstRefSlide (rfs : List RelFile) (p : PStr) : Option Nat :=
  match rfs with
  | [] => none
  | rf :: rest =>
      if rf.rels.any (fun r => relMediaPath? r == some p) then some rf.slideNumber
      else firstRefSlide rest p

theorem lookupL_append (m l : List (PStr × Nat)) (p : PStr) :
    lookupL (m ++ l) p = match lookupL m p with | some w => some w | none => lookupL l p := by
  induction m with
  | nil => simp [lookupL]
  | cons a m ih =>
      rcases a with ⟨ka, va⟩
      by_cases hka : ka = p
      · simp [lookupL, hka]
      · simp [lookupL, hka, ih]

theorem lookup_insertIfAbsent (m : List (PStr × Nat)) (k p : PStr) (v : Nat) :
    lookupL (insertIfAbsent m k v) p =
      match lookupL m p with
      | some w => some w
      | none => if k = p then some v else none := by
  unfold insertIfAbsent
  by_cases hk : (lookupL m k).isSome
  · rw [if_pos hk]
    rcases hmp : lookupL m p with _ | w
    · by_cases hkp : k = p
      · subst hkp; rw [hmp] at hk; simp at hk
      · simp [hmp, hkp]
    · simp [hmp]
  · rw [if_neg hk, lookupL_append]
    rcases hmp : lookupL m p with _ | w
    · simp [lookupL]
    · simp

theorem lookup_addRelFile (rf : RelFile) (p : PStr) :
    ∀ (m : List (PStr × Nat)),
      lookupL (addRelFile m rf) p =
        match lookupL m p with
        | some w => some w
        | none =>
            if rf.rels.any (fun r => relMediaPath? r == some p) then some rf.slideNumber
            else none := by
  rcases rf with ⟨sn, rels⟩
  induction rels with
  | nil => intro m; rcases hmp : lookupL m p with _ | w <;> simp [addRelFile, hmp]
  | cons r rest ih =>
      intro m
      simp only [addRelFile, List.foldl_cons] at *
      rcases hr : relMediaPath? r with _ | q
      · rw [ih m]
        rcases hmp : lookupL m p with _ | w
        · simp [List.any_cons, hr]
        · simp
      · rw [ih (insertIfAbsent m q sn), lookup_insertIfAbsent]
        rcases hmp : lookupL m p with _ | w
        · by_cases hqp : q = p
          · subst hqp
            simp [List.any_cons, hr]
          · have : (some q == some p) = false := by
              simp [hqp]
            simp [hqp, List.any_cons, hr, this]
        · simp

theorem lookup_buildSlideMap_from (p : PStr) :
    ∀ (rfs : List RelFile) (m : List (PStr × Nat)),
      lookupL (rfs.foldl addRelFile m) p =
        match lookupL m p with
        | some w => some w
        | none => firstRefSlide rfs p := by
  intro rfs
  induction rfs with
  | nil => intro m; rcases hmp : lookupL m p with _ | w <;> simp [firstRefSlide, hmp]
  | cons rf rest ih =>
      intro m
      simp only [List.foldl_cons]
      rw [ih (addRelFile m rf), lookup_addRelFile]
      rcases hmp : lookupL m p with _ | w
      · by_cases hany : rf.rels.any (fun r => relMediaPath? r == some p)
        · simp [firstRefSlide, hany]
        · simp [firstRefSlide, hany]
      · simp

theorem lookupL_none_not_mem_keys (m : List (PStr × Nat)) (k : PStr)
    (h : lookupL m k = none) : k ∉ m.map Prod.fst := by
  induction m with
  | nil => simp
  | cons a m ih =>
      rcases a with ⟨ka, va⟩
      by_cases hka : ka = k
      · simp [lookupL, hka] at h
      · simp only [lookupL, hka, if_false] at h
        simp [Ne.symm hka, ih h]

theorem nodup_insertIfAbsent (m : List (PStr × Nat)) (k : PStr) (v : Nat)
    (h : (m.map Prod.fst).Nodup) : ((insertIfAbsent m k v).map Prod.fst).Nodup := by
  unfold insertIfAbsent
  by_cases hk : (lookupL m k).isSome
  · simp [hk, h]
  · rw [if_neg hk]
    have hnone : lookupL m k = none := by
      rcases hmk : lookupL m k with _ | w
      · rfl
      · rw [hmk] at hk; simp at hk
    have hmem := lookupL_none_not_mem_keys m k hnone
    simp [List.nodup_append, h, hmem]

theorem nodup_addRelFile (rf : RelFile) :
    ∀ (m : List (PStr × Nat)), (m.map Prod.fst).Nodup →
      ((addRelFile m rf).map Prod.fst).Nodup := by
  rcases rf with ⟨sn, rels⟩
  induction rels with
  | nil => intro m h; simpa [addRelFile] using h
  | cons r rest ih =>
      intro m h
      simp only [addRelFile, List.foldl_cons] at *
      rcases hr : relMediaPath? r with _ | q
      · exact ih m h
      · exact ih (insertIfAbsent m q sn) (nodup_insertIfAbsent m q sn h)

/-- C2: the slide-media map assigns at most one slide number per media path
(its keys are duplicate-free), and the slide number recorded for a path is the
one from the first-encountered descriptor referencing it: a later reference
never overwrites an earlier one. -/
theorem C2_first_writer_wins (rfs : List RelFile) (p : PStr) :
    ((buildSlideMap rfs).map Prod.fst).Nodup ∧
    lookupL (buildSlideMap rfs) p = firstRefSlide rfs p := by
  constructor
  · have key : ∀ (l : List RelFile) (m : List (PStr × Nat)), (m.map Prod.fst).Nodup →
        ((l.foldl addRelFile m).map Prod.fst).Nodup := by
      intro l
      induction l with
      | nil => intro m h; simpa using h
      | cons rf rest ih =>
          intro m h
          simp only [List.foldl_cons]
          exact ih _ (nodup_addRelFile rf m h)
    exact key rfs [] (by simp)
  · have h := lookup_buildSlideMap_from p rfs []
    simpa [buildSlideMap, lookupL] using h

/-! ## C1: per-entry behaviour of the media extraction loop (img_ppt.py 90-150)

Whether a read from the zip raises, the payload is empty, the GIF byte-for-byte
write succeeds, and the decode/convert/re-encode of a still image succeeds are
environment oracles.  File writes are modelled as atomic. -/

def supported_input_formats : List PStr :=
  [(".png").toList, (".jpg").toList, (".jpeg").toList, (".bmp").toList,
   (".tiff").toList, (".tif").toList, (".webp").toList]

structure MediaEff where
  readOk : Bool
  nonEmpty : Bool
  saveOk : Bool
  convertOk : Bool

structure StepRes where
  outputs : List PStr
  extracted : Nat
  skipped : Nat

/-- The `slide<N>_` / `slideUNK_` prefix (img_ppt.py 98-99). -/
def slidePfxOf (slideMap : List (PStr × Nat)) (file : PStr) : PStr :=
  match lookupL slideMap file with
  | some n => ("slide").toList ++ (Nat.repr n).toList ++ ['_']
  | none => ("slideUNK_").toList

/-- One iteration of the `for file in ppt_zip.namelist()` loop of
`extract_images_from_ppt` (img_ppt.py 90-150): result of processing one archive
entry, as the produced output filenames and the increments of the two counters. -/
def processMediaEntry (slideMap : List (PStr × Nat)) (file : PStr) (eff : MediaEff) : StepRes :=
  if startsWithL ("ppt/media/").toList file then
    if lowerL (splitextExt (basenameL file)) = (".gif").toList ∨
        lowerL (splitextExt (basenameL file)) ∈ supported_input_formats then
      if ¬ eff.readOk then ⟨[], 0, 1⟩
      else if ¬ eff.nonEmpty then ⟨[], 0, 1⟩
      else if lowerL (splitextExt (basenameL file)) = (".gif").toList then
        if eff.saveOk then ⟨[slidePfxOf slideMap file ++ basenameL file], 1, 0⟩
        else ⟨[], 0, 1⟩
      else
        if eff.convertOk then
          ⟨[slidePfxOf slideMap file ++ splitextStem (basenameL file) ++ (".png").toList], 1, 0⟩
        else ⟨[], 0, 1⟩
    else ⟨[], 0, 1⟩
  else ⟨[], 0, 0⟩

/-- The whole extraction loop, accumulating outputs and both counters. -/
def extractLoop (slideMap : List (PStr × Nat)) (entries : List (PStr × MediaEff)) : StepRes :=
  entries.foldl
    (fun acc e =>
      ⟨acc.outputs ++ (processMediaEntry slideMap e.1 e.2).outputs,
       acc.extracted + (processMediaEntry slideMap e.1 e.2).extracted,
       acc.skipped + (processMediaEntry slideMap e.1 e.2).skipped⟩)
    ⟨[], 0, 0⟩

/-- C1: a media entry under `ppt/media/` whose extension is whitelisted either
produces exactly one output file (and is counted extracted, with no skip), or
increments the skip count (and produces no output) — never both, never
neither, for every combination of read/emptiness/write/convert outcomes. -/
theorem C1_media_entry_exclusive (slideMap : List (PStr × Nat)) (file : PStr) (eff : MediaEff)
    (hmedia : startsWithL ("ppt/media/").toList file = true)
    (hwl : lowerL (splitextExt (basenameL file)) = (".gif").toList ∨
      lowerL (splitextExt (basenameL file)) ∈ supported_input_formats) :
    ((processMediaEntry slideMap file eff).outputs.length = 1 ∧
      (processMediaEntry slideMap file eff).extracted = 1 ∧
      (processMediaEntry slideMap file eff).skipped = 0) ∨
    ((processMediaEntry slideMap file eff).outputs = [] ∧
      (processMediaEntry slideMap file eff).extracted = 0 ∧
      (processMediaEntry slideMap file eff).skipped = 1) := by
  rcases eff with ⟨readOk, nonEmpty, saveOk, convertOk⟩
  unfold processMediaEntry
  rw [hmedia]
  rw [if_pos rfl, if_pos hwl]
  by_cases hg : lowerL (splitextExt (basenameL file)) = (".gif").toList
  · rw [if_pos hg]
    cases readOk <;> cases nonEmpty <;> cases saveOk <;> simp
  · rw [if_neg hg]
    cases readOk <;> cases nonEmpty <;> cases convertOk <;> simp

/-- C1 witness: a whitelisted PNG entry with all effects succeeding takes the
first branch of the disjunction. -/
theorem C1_media_entry_exclusive_witness :
    ((processMediaEntry [] ("ppt/media/image1.png").toList ⟨true, true, true, true⟩).outputs.length = 1 ∧
      (processMediaEntry [] ("ppt/media/image1.png").toList ⟨true, true, true, true⟩).extracted = 1 ∧
      (processMediaEntry [] ("ppt/media/image1.png").toList ⟨true, true, true, true⟩).skipped = 0) ∨
    ((processMediaEntry [] ("ppt/media/image1.png").toList ⟨true, true, true, true⟩).outputs = [] ∧
      (processMediaEntry [] ("ppt/media/image1.png").toList ⟨true, true, true, true⟩).extracted = 0 ∧
      (processMediaEntry [] ("ppt/media/image1.png").toList ⟨true, true, true, true⟩).skipped = 1) :=
  C1_media_entry_exclusive [] ("ppt/media/image1.png").toList ⟨true, true, true, true⟩
    (by decide) (by decide)

/-! ## C8: the two description boundaries (descpgen.py 58-105 and 107-170)

What the external API returns on each attempt is an oracle indexed by attempt
number.  The prompt/content assembly, which does not affect the retry policy,
is not modelled.  `safe_llm_call` is the still-format (Gemini) boundary's
wrapper; `generate_description_gpt4o` is the animated-format (OpenAI) boundary. -/

/-- One Gemini API attempt either returns a response with a text or raises. -/
inductive LLMResp where
  | reply (text : String)
  | exc (msg : String)

structure SafeOut where
  text : Option String
  error : Option String
  apiCalls : Nat
  sleptSeconds : Nat
deriving DecidableEq, Repr

/-- Model of `safe_llm_call` (descpgen.py 58-105): the
`for attempt in range(max_retries)` loop with `max_retries = 2` and `delay = 2`
unrolled.  An empty/whitespace response or an exception on the first attempt
sleeps `delay` seconds and retries once; the second attempt's empty response or
exception is surfaced as an error string.  `apiCalls` counts API attempts made
and `sleptSeconds` the total backoff slept. -/
def safe_llm_call (api : Nat → LLMResp) : SafeOut :=
  match api 0 with
  | .reply t =>
      if t.trim = "" then
        match api 1 with
        | .reply t2 =>
            if t2.trim = "" then ⟨none, some "Error: Received empty/invalid response.", 2, 2⟩
            else ⟨some t2.trim, none, 2, 2⟩
        | .exc m => ⟨none, some ("Error during LLM API call: " ++ m), 2, 2⟩
      else ⟨some t.trim, none, 1, 0⟩
  | .exc _ =>
      match api 1 with
      | .reply t2 =>
          if t2.trim = "" then ⟨none, some "Error: Received empty/invalid response.", 2, 2⟩
          else ⟨some t2.trim, none, 2, 2⟩
      | .exc m2 => ⟨none, some ("Error during LLM API call: " ++ m2), 2, 2⟩

/-- One OpenAI chat-completions call: a response with/without choices and with
an optional message content, or an exception. -/
inductive GptResp where
  | resp (hasChoices : Bool) (content : Option String)
  | exc (msg : String)

/-- Model of `generate_description_gpt4o` (descpgen.py 107-170): a single API
call; an empty or missing description yields a fallback string and an
exception yields an error string, with no retry and no backoff.  The second
component counts API attempts made (always 1). -/
def generate_description_gpt4o (api : Nat → GptResp) : String × Nat :=
  match api 0 with
  | .resp hasChoices content =>
      if hasChoices then
        match content with
        | some d => if d = "" then ("No description available", 1) else (d, 1)
        | none => ("No description available", 1)
      else ("Error: Unexpected response format", 1)
  | .exc m => ("Error during API call: " ++ m, 1)

/-- C8 counterexample: the animated-format boundary does not retry.  With an
oracle whose first response has an empty description and whose second response
would succeed, `generate_description_gpt4o` makes exactly one API call and
returns the fallback string instead of retrying — contradicting the claim that
both boundaries apply a two-attempt retry on an empty/invalid response. -/
theorem C8_counterexample :
    (generate_description_gpt4o
      (fun n => if n = 0 then GptResp.resp true none
                else GptResp.resp true (some "A labelled diagram"))).2 = 1 ∧
    (generate_description_gpt4o
      (fun n => if n = 0 then GptResp.resp true none
                else GptResp.resp true (some "A labelled diagram"))).1 =
      "No description available" :=
  ⟨rfl, rfl⟩

/-- C8 (amended): only the still-format boundary (`safe_llm_call`, used by the
Gemini path) applies the bounded retry: at most two attempts, a second attempt
with a fixed 2-second backoff exactly when the first response is
empty/whitespace or raises; the animated-format boundary
(`generate_description_gpt4o`, OpenAI) performs exactly one API call and
surfaces its fallback or error string immediately, with no retry. -/
theorem C8_amended_retry_policy (api : Nat → LLMResp) (gapi : Nat → GptResp) :
    (safe_llm_call api).apiCalls ≤ 2 ∧
    ((safe_llm_call api).apiCalls =
      match api 0 with
      | .reply t => if t.trim = "" then 2 else 1
      | .exc _ => 2) ∧
    ((safe_llm_call api).sleptSeconds =
      match api 0 with
      | .reply t => if t.trim = "" then 2 else 0
      | .exc _ => 2) ∧
    (generate_description_gpt4o gapi).2 = 1 := by
  refine ⟨?_, ?_, ?_, ?_⟩
  · unfold safe_llm_call
    rcases h0 : api 0 with t | m
    · by_cases ht : t.trim = ""
      · rcases h1 : api 1 with t2 | m2
        · by_cases ht2 : t2.trim = "" <;> simp [ht, ht2]
        · simp [ht]
      · simp [ht]
    · rcases h1 : api 1 with t2 | m2
      · by_cases ht2 : t2.trim = "" <;> simp [ht2]
      · simp
  · unfold safe_llm_call
    rcases h0 : api 0 with t | m
    · by_cases ht : t.trim = ""
      · rcases h1 : api 1 with t2 | m2
        · by_cases ht2 : t2.trim = "" <;> simp [ht, ht2]
        · simp [ht]
      · simp [ht]
    · rcases h1 : api 1 with t2 | m2
      · by_cases ht2 : t2.trim = "" <;> simp [ht2]
      · simp
  · unfold safe_llm_call
    rcases h0 : api 0 with t | m
    · by_cases ht : t.trim = ""
      · rcases h1 : api 1 with t2 | m2
        · by_cases ht2 : t2.trim = "" <;> simp [ht, ht2]
        · simp [ht]
      · simp [ht]
    · rcases h1 : api 1 with t2 | m2
      · by_cases ht2 : t2.trim = "" <;> simp [ht2]
      · simp
  · unfold generate_description_gpt4o
    rcases hg : gapi 0 with ⟨hc, c⟩ | m
    · cases hc
      · simp
      · rcases c with _ | d
        · simp
        · by_cases hd : d = "" <;> simp [hd]
    · simp

/-! ## C10: `update_csv_with_s3_url` (main.py 173-249)

A CSV file is modelled as its header (field names) and a list of rows; each row
is a dict modelled as an association list from field name to value.  Whether
the final rewrite of the file succeeds is an oracle; read errors are not
modelled (the claim concerns well-formed readable files). -/

abbrev Row := List (String × String)

/-- Python `row.get(k)`. -/
def rowGet (r : Row) (k : String) : Option String :=
  match r with
  | [] => none
  | (k', v) :: rest => if k' = k then some v else rowGet rest k

/-- Python `row[k] = v` on a dict: replaces the binding if present, else adds. -/
def rowSet (r : Row) (k v : String) : Row :=
  match r with
  | [] => [(k, v)]
  | (k', v') :: rest => if k' = k then (k', v) :: rest else (k', v') :: rowSet rest k v

structure CsvFile where
  header : List String
  rows : List Row

/-- The headers main.py invents for a zero-byte CSV file (line 195). -/
def default_headers : List String := ["image_filename", "description", "s3_url", "input_path"]

/-- Appending `s3_url` and `input_path` to the field names when absent
(main.py 202-205). -/
def extendHeader (h : List String) : List String :=
  if "input_path" ∈ (if "s3_url" ∈ h then h else h ++ ["s3_url"])
  then (if "s3_url" ∈ h then h else h ++ ["s3_url"])
  else (if "s3_url" ∈ h then h else h ++ ["s3_url"]) ++ ["input_path"]

/-- Choice of the filename column (main.py 208-214). -/
def findFilenameCol (fieldnames : List String) : Option String :=
  if "image_filename" ∈ fieldnames then some "image_filename"
  else if "filename" ∈ fieldnames then some "filename"
  else if "gif_filename" ∈ fieldnames then some "gif_filename"
  else none

/-- Model of `update_csv_with_s3_url` (main.py 173-249).  Returns the Python
return value and the file contents after the call.  A header-less file is a
zero-byte file, for which the code substitutes `default_headers`; when the
function returns False nothing has been written. -/
def update_csv_with_s3_url (fileExists : Bool) (file : CsvFile)
    (filename s3_url input_path : String) (writeOk : Bool) : Bool × CsvFile :=
  if ¬ fileExists then (false, file)
  else
    match findFilenameCol (extendHeader (if file.header = [] then default_headers else file.header)) with
    | none => (false, file)
    | some col =>
        if writeOk then
          (true,
           ⟨extendHeader (if file.header = [] then default_headers else file.header),
            file.rows.map (fun r =>
              if rowGet r col = some filename then
                rowSet (rowSet r "s3_url" s3_url) "input_path" input_path
              else r)⟩)
        else (false, file)

theorem rowGet_rowSet_same (r : Row) (k v : String) :
    rowGet (rowSet r k v) k = some v := by
  induction r with
  | nil => simp [rowSet, rowGet]
  | cons a rest ih =>
      rcases a with ⟨k', v'⟩
      by_cases hk : k' = k
      · simp [rowSet, hk, rowGet]
      · simp [rowSet, hk, rowGet, ih]

theorem rowGet_rowSet_ne (r : Row) (k v k' : String) (h : k' ≠ k) :
    rowGet (rowSet r k v) k' = rowGet r k' := by
  induction r with
  | nil => simp [rowSet, rowGet, Ne.symm h]
  | cons a rest ih =>
      rcases a with ⟨ka, va⟩
      by_cases hk : ka = k
      · subst hk
        have hne2 : ka ≠ k' := fun hh => h hh.symm
        simp [rowSet, rowGet, hne2]
      · simp [rowSet, hk, rowGet, ih]

/-- C10: for an existing CSV file with a recognized filename column `col` and a
successful rewrite, `update_csv_with_s3_url` returns True (even when no row
matched), keeps the number and order of rows, rewrites exactly the rows whose
filename-column value equals the given filename (setting their `s3_url` and
`input_path` fields and nothing else), leaves every other row untouched, and
appends the `s3_url` and `input_path` columns to the header exactly when they
are absent. -/
theorem C10_csv_update_frame (file : CsvFile) (filename s3_url input_path : String)
    (col : String)
    (hne : file.header ≠ [])
    (hcol : findFilenameCol (extendHeader file.header) = some col) :
    (update_csv_with_s3_url true file filename s3_url input_path true).1 = true ∧
    (update_csv_with_s3_url true file filename s3_url input_path true).2.rows.length =
      file.rows.length ∧
    (∀ i (h : i < file.rows.length),
      rowGet (file.rows.get ⟨i, h⟩) col ≠ some filename →
        (update_csv_with_s3_url true file filename s3_url input_path true).2.rows.get
          ⟨i, by simpa [update_csv_with_s3_url, hne, hcol] using h⟩ = file.rows.get ⟨i, h⟩) ∧
    (∀ i (h : i < file.rows.length),
      rowGet (file.rows.get ⟨i, h⟩) col = some filename →
        rowGet ((update_csv_with_s3_url true file filename s3_url input_path true).2.rows.get
          ⟨i, by simpa [update_csv_with_s3_url, hne, hcol] using h⟩) "s3_url" = some s3_url ∧
        rowGet ((update_csv_with_s3_url true file filename s3_url input_path true).2.rows.get
          ⟨i, by simpa [update_csv_with_s3_url, hne, hcol] using h⟩) "input_path" = some input_path ∧
        (∀ k, k ≠ "s3_url" → k ≠ "input_path" →
          rowGet ((update_csv_with_s3_url true file filename s3_url input_path true).2.rows.get
            ⟨i, by simpa [update_csv_with_s3_url, hne, hcol] using h⟩) k =
          rowGet (file.rows.get ⟨i, h⟩) k)) ∧
    (update_csv_with_s3_url true file filename s3_url input_path true).2.header =
      file.header ++ (if "s3_url" ∈ file.header then [] else ["s3_url"]) ++
        (if "input_path" ∈ file.header then [] else ["input_path"]) := by
  have hout : update_csv_with_s3_url true file filename s3_url input_path true =
      (true,
       ⟨extendHeader file.header,
        file.rows.map (fun r =>
          if rowGet r col = some filename then
            rowSet (rowSet r "s3_url" s3_url) "input_path" input_path
          else r)⟩) := by
    simp [update_csv_with_s3_url, hne, hcol]
  refine ⟨by rw [hout], by rw [hout]; simp, ?_, ?_, ?_⟩
  · intro i h hno
    simp only [List.get_eq_getElem] at hno
    simp only [hout, List.get_eq_getElem, List.getElem_map]
    rw [if_neg hno]
  · intro i h hyes
    simp only [List.get_eq_getElem] at hyes
    simp only [hout, List.get_eq_getElem, List.getElem_map]
    rw [if_pos hyes]
    refine ⟨?_, rowGet_rowSet_same _ _ _, ?_⟩
    · rw [rowGet_rowSet_ne _ _ _ _ (by decide)]
      exact rowGet_rowSet_same _ _ _
    · intro k hk1 hk2
      rw [rowGet_rowSet_ne _ _ _ _ hk2, rowGet_rowSet_ne _ _ _ _ hk1]
  · rw [hout]
    show extendHeader file.header = _
    unfold extendHeader
    by_cases h1 : "s3_url" ∈ file.header <;> by_cases h2 : "input_path" ∈ file.header <;>
      simp [h1, h2, List.mem_append]

/-- C10 witness: a concrete two-row CSV where one row matches: the call returns
True, the matching row gains the URL fields, the other row is untouched. -/
theorem C10_csv_update_frame_witness :
    (⟨["image_filename", "description"],
      [[("image_filename", "a.png"), ("description", "x")],
       [("image_filename", "b.png"), ("description", "y")]]⟩ : CsvFile).header ≠ [] ∧
    findFilenameCol (extendHeader ["image_filename", "description"]) = some "image_filename" ∧
    (update_csv_with_s3_url true
      ⟨["image_filename", "description"],
       [[("image_filename", "a.png"), ("description", "x")],
        [("image_filename", "b.png"), ("description", "y")]]⟩
      "a.png" "https://u" "p/a.png" true).1 = true ∧
    (update_csv_with_s3_url true
      ⟨["image_filename", "description"],
       [[("image_filename", "a.png"), ("description", "x")],
        [("image_filename", "b.png"), ("description", "y")]]⟩
      "a.png" "https://u" "p/a.png" true).2.header =
      ["image_filename", "description", "s3_url", "input_path"] :=
  ⟨by decide, by decide,
   (C10_csv_update_frame
      ⟨["image_filename", "description"],
       [[("image_filename", "a.png"), ("description", "x")],
        [("image_filename", "b.png"), ("description", "y")]]⟩
      "a.png" "https://u" "p/a.png" "image_filename" (by decide) (by decide)).1,
   by
    have h := (C10_csv_update_frame
      ⟨["image_filename", "description"],
       [[("image_filename", "a.png"), ("description", "x")],
        [("image_filename", "b.png"), ("description", "y")]]⟩
      "a.png" "https://u" "p/a.png" "image_filename" (by decide) (by decide)).2.2.2.2
    rw [h]
    decide⟩

/-! ## C3/C4/C5: the per-presentation orchestrator `process_ppt` (main.py 495-547)

Filesystem state is the list of existing paths (files and directories) plus the
two persistence collections.  The extract, describe and organize steps are
driven by oracles: `none` means the step raised an exception (caught at main.py
536); `some` carries the file names the step created — extract and describe
write only into the scratch directory (they receive `temp_dir` as their output
folder), organize moves/writes files into the images and gifs directories and
appends the imported documents to the collections.  `shutil` operations are
modelled as succeeding. -/

structure PState where
  fs : List PStr
  imagesColl : List Row
  gifsColl : List Row

/-- `os.makedirs(d, exist_ok=True)` restricted to the directory entry itself. -/
def makedirs (d : PStr) (fs : List PStr) : List PStr := if d ∈ fs then fs else d :: fs

/-- Creation of a file path. -/
def insertPath (p : PStr) (fs : List PStr) : List PStr := if p ∈ fs then fs else p :: fs

/-- Is `p` the directory `d` itself or a path strictly below it? -/
def underDir (d p : PStr) : Bool := p == d || startsWithL (d ++ ['/']) p

/-- `shutil.rmtree d`: removes the directory and everything below it. -/
def removeTree (d : PStr) (fs : List PStr) : List PStr :=
  fs.filter (fun p => !(underDir d p))

/-- Creation of the named files inside directory `d`. -/
def addFilesUnder (d : PStr) (files : List PStr) (fs : List PStr) : List PStr :=
  files.foldl (fun acc f => insertPath (d ++ '/' :: f) acc) fs

/-- `ppt_name` (main.py 496). -/
def pptNameOf (rel : PStr) : PStr := splitextStem (basenameL rel)

/-- `checkpoint_dir` (main.py 500-501). -/
def checkpointDirOf (base rel : PStr) : PStr := pathJoin base (dirnameL rel)

/-- `checkpoint_file` (main.py 504). -/
def checkpointFileOf (base rel : PStr) : PStr :=
  pathJoin (checkpointDirOf base rel) ('.' :: pptNameOf rel ++ (".done").toList)

/-- `ppt_output_base` (main.py 512). -/
def pptOutputBaseOf (base rel : PStr) : PStr :=
  pathJoin (pathJoin base (dirnameL rel)) (pptNameOf rel)

/-- `temp_dir` (main.py 513). -/
def tempDirOf (base rel : PStr) : PStr :=
  pathJoin (pptOutputBaseOf base rel) (("temp_processing").toList)

/-- The images directory of `setup_output_directories` (main.py 155-171). -/
def imagesDirOf (base rel : PStr) : PStr :=
  pathJoin (pptOutputBaseOf base rel) (("images").toList)

/-- The gifs directory of `setup_output_directories` (main.py 155-171). -/
def gifsDirOf (base rel : PStr) : PStr :=
  pathJoin (pptOutputBaseOf base rel) (("gifs").toList)

/-- Effect of a completed `organize_files` call: files placed into the images
and gifs directories (moved media and the split CSV files) and the documents
bulk-inserted into the two collections. -/
structure OrgEff where
  intoImages : List PStr
  intoGifs : List PStr
  importedImages : List Row
  importedGifs : List Row

/-- Outcome oracles for the three steps of the `try` block (main.py 522-528). -/
structure RunEff where
  extract : Option (List PStr)
  describe : Option (List PStr)
  organize : Option OrgEff

/-- Filesystem state after the pre-try scaffolding of `process_ppt` run past
the checkpoint check: deleting any stale scratch directory, recreating it, and
`setup_output_directories` (main.py 515-520). -/
def scaffoldFs (base rel : PStr) (fs1 : List PStr) : List PStr :=
  makedirs (gifsDirOf base rel)
    (makedirs (imagesDirOf base rel)
      (makedirs (tempDirOf base rel)
        (if tempDirOf base rel ∈ fs1 then removeTree (tempDirOf base rel) fs1 else fs1)))

/-- State after the `try` block of `process_ppt` (main.py 522-534): each `none`
oracle is an exception raised by that step and caught by the `except` at
main.py 536; the checkpoint file is written only when all three steps returned. -/
def tryBlock (base rel : PStr) (eff : RunEff) (fs4 : List PStr)
    (imagesColl gifsColl : List Row) : PState :=
  match eff.extract with
  | none => ⟨fs4, imagesColl, gifsColl⟩
  | some exFiles =>
      match eff.describe with
      | none => ⟨addFilesUnder (tempDirOf base rel) exFiles fs4, imagesColl, gifsColl⟩
      | some deFiles =>
          match eff.organize with
          | none =>
              ⟨addFilesUnder (tempDirOf base rel) deFiles
                 (addFilesUnder (tempDirOf base rel) exFiles fs4),
               imagesColl, gifsColl⟩
          | some o =>
              ⟨insertPath (checkpointFileOf base rel)
                 (addFilesUnder (gifsDirOf base rel) o.intoGifs
                   (addFilesUnder (imagesDirOf base rel) o.intoImages
                     (addFilesUnder (tempDirOf base rel) deFiles
                       (addFilesUnder (tempDirOf base rel) exFiles fs4)))),
               imagesColl ++ o.importedImages, gifsColl ++ o.importedGifs⟩

/-- The `finally` block of `process_ppt` (main.py 540-547): remove the scratch
directory when it exists. -/
def finallyCleanup (d : PStr) (st : PState) : PState :=
  ⟨if d ∈ st.fs then removeTree d st.fs else st.fs, st.imagesColl, st.gifsColl⟩

/-- Model of `process_ppt` (main.py 495-547): `os.makedirs(checkpoint_dir)`
(line 503), the checkpoint short-circuit (506-508), the scaffolding, the try
block and the guaranteed cleanup. -/
def process_ppt (base rel : PStr) (eff : RunEff) (s : PState) : PState :=
  if checkpointFileOf base rel ∈ makedirs (checkpointDirOf base rel) s.fs then
    ⟨makedirs (checkpointDirOf base rel) s.fs, s.imagesColl, s.gifsColl⟩
  else
    finallyCleanup (tempDirOf base rel)
      (tryBlock base rel eff
        (scaffoldFs base rel (makedirs (checkpointDirOf base rel) s.fs))
        s.imagesColl s.gifsColl)

/-- One iteration of the per-file image/GIF loop of `organize_files`
(main.py 367-405): `moveOk` models `shutil.move` (its failure is caught by the
per-file `except`), `uploadOk` whether `upload_file_to_s3` returned a URL
(`None` on failure).  On upload failure no CSV update happens, the failure is
only logged, and the loop continues — nothing is raised. -/
def organize_upload_step (csv : CsvFile) (fname url input_path : String)
    (moveOk uploadOk writeOk : Bool) : CsvFile :=
  if ¬ moveOk then csv
  else if ¬ uploadOk then csv
  else (update_csv_with_s3_url true csv fname url input_path writeOk).2

/-- The path-shape facts of the real output layout used by the orchestrator
proofs: the checkpoint file does not live inside the scratch, images or gifs
directories and is distinct from the created directories. -/
def SepPaths (base rel : PStr) : Prop :=
  underDir (tempDirOf base rel) (checkpointFileOf base rel) = false ∧
  startsWithL (imagesDirOf base rel ++ ['/']) (checkpointFileOf base rel) = false ∧
  startsWithL (gifsDirOf base rel ++ ['/']) (checkpointFileOf base rel) = false ∧
  checkpointFileOf base rel ≠ checkpointDirOf base rel ∧
  checkpointFileOf base rel ≠ tempDirOf base rel ∧
  checkpointFileOf base rel ≠ imagesDirOf base rel ∧
  checkpointFileOf base rel ≠ gifsDirOf base rel

theorem mem_insertPath (p q : PStr) (fs : List PStr) :
    p ∈ insertPath q fs ↔ p = q ∨ p ∈ fs := by
  unfold insertPath
  by_cases hq : q ∈ fs
  · simp only [if_pos hq]
    constructor
    · exact fun h => Or.inr h
    · rintro (rfl | h)
      · exact hq
      · exact h
  · simp [if_neg hq]

theorem mem_makedirs (p q : PStr) (fs : List PStr) :
    p ∈ makedirs q fs ↔ p = q ∨ p ∈ fs := mem_insertPath p q fs

theorem startsWithL_append_self (x y : PStr) : startsWithL x (x ++ y) = true := by
  induction x with
  | nil => rfl
  | cons a as ih => simp [startsWithL, ih]

theorem mem_addFilesUnder_of_not_under (p : PStr) (d : PStr) (files : List PStr)
    (h : startsWithL (d ++ ['/']) p = false) :
    ∀ fs : List PStr, p ∈ addFilesUnder d files fs ↔ p ∈ fs := by
  induction files with
  | nil => intro fs; simp [addFilesUnder]
  | cons f rest ih =>
      intro fs
      simp only [addFilesUnder, List.foldl_cons] at *
      rw [ih (insertPath (d ++ '/' :: f) fs), mem_insertPath]
      constructor
      · rintro (rfl | hmem)
        · exfalso
          have : startsWithL (d ++ ['/']) (d ++ '/' :: f) = true := by
            have := startsWithL_append_self (d ++ ['/']) f
            simpa using this
          rw [h] at this
          exact Bool.false_ne_true this
        · exact hmem
      · exact fun hmem => Or.inr hmem

theorem mem_addFilesUnder_mono (p : PStr) (d : PStr) (files : List PStr) :
    ∀ fs : List PStr, p ∈ fs → p ∈ addFilesUnder d files fs := by
  induction files with
  | nil => intro fs h; simpa [addFilesUnder] using h
  | cons f rest ih =>
      intro fs h
      simp only [addFilesUnder, List.foldl_cons] at *
      exact ih (insertPath (d ++ '/' :: f) fs) ((mem_insertPath _ _ _).mpr (Or.inr h))

theorem mem_removeTree (p d : PStr) (fs : List PStr) :
    p ∈ removeTree d fs ↔ p ∈ fs ∧ underDir d p = false := by
  unfold removeTree
  rw [List.mem_filter]
  simp

instance (base rel : PStr) : Decidable (SepPaths base rel) := by
  unfold SepPaths
  infer_instance

theorem notmem_finallyCleanup (p d : PStr) (st : PState) (h : p ∉ st.fs) :
    p ∉ (finallyCleanup d st).fs := by
  unfold finallyCleanup
  by_cases htd : d ∈ st.fs
  · simp only [if_pos htd]
    rw [mem_removeTree]
    rintro ⟨hmem, _⟩
    exact h hmem
  · simpa [if_neg htd] using h

theorem mem_finallyCleanup_of (p d : PStr) (st : PState) (h : p ∈ st.fs)
    (hu : underDir d p = false) : p ∈ (finallyCleanup d st).fs := by
  unfold finallyCleanup
  by_cases htd : d ∈ st.fs
  · simp only [if_pos htd]
    rw [mem_removeTree]
    exact ⟨h, hu⟩
  · simpa [if_neg htd] using h

theorem mem_of_mem_finallyCleanup (p d : PStr) (st : PState)
    (h : p ∈ (finallyCleanup d st).fs) : p ∈ st.fs := by
  unfold finallyCleanup at h
  by_cases htd : d ∈ st.fs
  · rw [if_pos htd] at h
    exact ((mem_removeTree p d st.fs).mp h).1
  · rwa [if_neg htd] at h

/-- C3: the checkpoint marker appears in the final state exactly when the
extract, describe and organize steps all completed without raising; and a
failed upload inside the organize loop performs no CSV update (the row's URL
fields stay as they were — empty) and raises nothing, so it does not block the
checkpoint. -/
theorem C3_checkpoint_iff_steps (base rel : PStr) (eff : RunEff) (s : PState)
    (hsep : SepPaths base rel) (hcp : checkpointFileOf base rel ∉ s.fs) :
    (checkpointFileOf base rel ∈ (process_ppt base rel eff s).fs ↔
      eff.extract.isSome = true ∧ eff.describe.isSome = true ∧ eff.organize.isSome = true) ∧
    (∀ (csv : CsvFile) (fname url ipath : String) (moveOk writeOk : Bool),
      organize_upload_step csv fname url ipath moveOk false writeOk = csv) := by
  obtain ⟨hTmp, hImg, hGif, hNeCd, hNeTd, hNeImg, hNeGif⟩ := hsep
  have hTmpStart : startsWithL (tempDirOf base rel ++ ['/']) (checkpointFileOf base rel) = false := by
    unfold underDir at hTmp
    exact (Bool.or_eq_false_iff.mp hTmp).2
  constructor
  · have hnotS1 : checkpointFileOf base rel ∉ makedirs (checkpointDirOf base rel) s.fs := by
      rw [mem_makedirs]
      rintro (h | h)
      · exact hNeCd h
      · exact hcp h
    have hnotScaffold : checkpointFileOf base rel ∉
        scaffoldFs base rel (makedirs (checkpointDirOf base rel) s.fs) := by
      unfold scaffoldFs
      rw [mem_makedirs, mem_makedirs, mem_makedirs]
      rintro (hg | hi | ht | hmem)
      · exact hNeGif hg
      · exact hNeImg hi
      · exact hNeTd ht
      · by_cases htd : tempDirOf base rel ∈ makedirs (checkpointDirOf base rel) s.fs
        · rw [if_pos htd, mem_removeTree] at hmem
          exact hnotS1 hmem.1
        · rw [if_neg htd] at hmem
          exact hnotS1 hmem
    unfold process_ppt
    rw [if_neg hnotS1]
    rcases hex : eff.extract with _ | exFiles
    · constructor
      · intro hmem
        exfalso
        apply hnotScaffold
        have := mem_of_mem_finallyCleanup _ _ _ hmem
        simpa [tryBlock, hex] using this
      · rintro ⟨h1, _, _⟩
        simp at h1
    · rcases hde : eff.describe with _ | deFiles
      · constructor
        · intro hmem
          exfalso
          apply hnotScaffold
          have hmem2 := mem_of_mem_finallyCleanup _ _ _ hmem
          simp only [tryBlock, hex, hde] at hmem2
          rwa [mem_addFilesUnder_of_not_under _ _ _ hTmpStart] at hmem2
        · rintro ⟨_, h2, _⟩
          simp at h2
      · rcases hor : eff.organize with _ | o
        · constructor
          · intro hmem
            exfalso
            apply hnotScaffold
            have hmem2 := mem_of_mem_finallyCleanup _ _ _ hmem
            simp only [tryBlock, hex, hde, hor] at hmem2
            rwa [mem_addFilesUnder_of_not_under _ _ _ hTmpStart,
              mem_addFilesUnder_of_not_under _ _ _ hTmpStart] at hmem2
          · rintro ⟨_, _, h3⟩
            simp at h3
        · constructor
          · intro _
            exact ⟨rfl, rfl, rfl⟩
          · intro _
            apply mem_finallyCleanup_of _ _ _ _ hTmp
            simp only [tryBlock, hex, hde, hor]
            exact (mem_insertPath _ _ _).mpr (Or.inl rfl)
  · intro csv fname url ipath moveOk writeOk
    cases moveOk <;> simp [organize_upload_step]

/-- C3 witness: a concrete run over an empty filesystem with all three steps
succeeding creates the checkpoint marker. -/
theorem C3_checkpoint_iff_steps_witness :
    SepPaths ("out").toList ("ch1/mod1.pptx").toList ∧
    checkpointFileOf ("out").toList ("ch1/mod1.pptx").toList ∉ ([] : List PStr) ∧
    checkpointFileOf ("out").toList ("ch1/mod1.pptx").toList ∈
      (process_ppt ("out").toList ("ch1/mod1.pptx").toList
        ⟨some [("slide1_image1.png").toList], some [("descriptions.csv").toList],
         some ⟨[("slide1_image1.png").toList], [], [], []⟩⟩
        ⟨[], [], []⟩).fs :=
  ⟨by decide, by decide,
   (C3_checkpoint_iff_steps ("out").toList ("ch1/mod1.pptx").toList
      ⟨some [("slide1_image1.png").toList], some [("descriptions.csv").toList],
       some ⟨[("slide1_image1.png").toList], [], [], []⟩⟩
      ⟨[], [], []⟩ (by decide) (by decide)).1.mpr ⟨rfl, rfl, rfl⟩⟩

/-- C4: a presentation whose checkpoint marker already exists is skipped: the
whole state — output tree and both persistence collections — is returned
unchanged, so a second run over the same input is a no-op for it. -/
theorem C4_checkpoint_skip_idempotent (base rel : PStr) (eff : RunEff) (s : PState)
    (hcp : checkpointFileOf base rel ∈ s.fs)
    (hdir : checkpointDirOf base rel ∈ s.fs) :
    process_ppt base rel eff s = s := by
  rcases s with ⟨fs, ic, gc⟩
  unfold process_ppt
  have hmk : makedirs (checkpointDirOf base rel) fs = fs := by
    unfold makedirs
    rw [if_pos hdir]
  rw [hmk, if_pos hcp]

/-- C4 witness: with the marker (and its directory) present, a fully-armed run
changes nothing. -/
theorem C4_checkpoint_skip_idempotent_witness :
    checkpointFileOf ("out").toList ("ch1/mod1.pptx").toList ∈
      [checkpointFileOf ("out").toList ("ch1/mod1.pptx").toList,
       checkpointDirOf ("out").toList ("ch1/mod1.pptx").toList] ∧
    process_ppt ("out").toList ("ch1/mod1.pptx").toList
      ⟨some [("x.png").toList], some [("d.csv").toList], some ⟨[("x.png").toList], [], [], []⟩⟩
      ⟨[checkpointFileOf ("out").toList ("ch1/mod1.pptx").toList,
        checkpointDirOf ("out").toList ("ch1/mod1.pptx").toList], [], []⟩ =
    ⟨[checkpointFileOf ("out").toList ("ch1/mod1.pptx").toList,
      checkpointDirOf ("out").toList ("ch1/mod1.pptx").toList], [], []⟩ :=
  ⟨by decide,
   C4_checkpoint_skip_idempotent ("out").toList ("ch1/mod1.pptx").toList
     ⟨some [("x.png").toList], some [("d.csv").toList], some ⟨[("x.png").toList], [], [], []⟩⟩
     ⟨[checkpointFileOf ("out").toList ("ch1/mod1.pptx").toList,
       checkpointDirOf ("out").toList ("ch1/mod1.pptx").toList], [], []⟩
     (by decide) (by decide)⟩

/-- C5: once `process_ppt` gets past the checkpoint check, the scratch
directory and everything below it are gone from the final state on every exit
path — for every combination of step successes and failures. -/
theorem C5_temp_dir_removed (base rel : PStr) (eff : RunEff) (s : PState)
    (hcp : checkpointFileOf base rel ∉ s.fs)
    (hne : checkpointFileOf base rel ≠ checkpointDirOf base rel)
    (p : PStr) (hp : underDir (tempDirOf base rel) p = true) :
    p ∉ (process_ppt base rel eff s).fs := by
  have hnotS1 : checkpointFileOf base rel ∉ makedirs (checkpointDirOf base rel) s.fs := by
    rw [mem_makedirs]
    rintro (h | h)
    · exact hne h
    · exact hcp h
  unfold process_ppt
  rw [if_neg hnotS1]
  have htempScaffold : tempDirOf base rel ∈
      scaffoldFs base rel (makedirs (checkpointDirOf base rel) s.fs) := by
    unfold scaffoldFs
    rw [mem_makedirs, mem_makedirs, mem_makedirs]
    exact Or.inr (Or.inr (Or.inl rfl))
  have htempTry : tempDirOf base rel ∈
      (tryBlock base rel eff (scaffoldFs base rel (makedirs (checkpointDirOf base rel) s.fs))
        s.imagesColl s.gifsColl).fs := by
    rcases hex : eff.extract with _ | exFiles
    · simpa [tryBlock, hex] using htempScaffold
    · rcases hde : eff.describe with _ | deFiles
      · simp only [tryBlock, hex, hde]
        exact mem_addFilesUnder_mono _ _ _ _ htempScaffold
      · rcases hor : eff.organize with _ | o
        · simp only [tryBlock, hex, hde, hor]
          exact mem_addFilesUnder_mono _ _ _ _
            (mem_addFilesUnder_mono _ _ _ _ htempScaffold)
        · simp only [tryBlock, hex, hde, hor]
          refine (mem_insertPath _ _ _).mpr (Or.inr ?_)
          exact mem_addFilesUnder_mono _ _ _ _
            (mem_addFilesUnder_mono _ _ _ _
              (mem_addFilesUnder_mono _ _ _ _
                (mem_addFilesUnder_mono _ _ _ _ htempScaffold)))
  unfold finallyCleanup
  rw [if_pos htempTry]
  rw [mem_removeTree]
  rintro ⟨_, hu⟩
  rw [hp] at hu
  exact Bool.noConfusion hu

/-- C5 witness: after a run in which the describe step raised, the scratch
directory is absent from the final state. -/
theorem C5_temp_dir_removed_witness :
    underDir (tempDirOf ("out").toList ("ch1/mod1.pptx").toList)
      (tempDirOf ("out").toList ("ch1/mod1.pptx").toList) = true ∧
    tempDirOf ("out").toList ("ch1/mod1.pptx").toList ∉
      (process_ppt ("out").toList ("ch1/mod1.pptx").toList
        ⟨some [("slide1_image1.png").toList], none, none⟩ ⟨[], [], []⟩).fs :=
  ⟨by decide,
   C5_temp_dir_removed ("out").toList ("ch1/mod1.pptx").toList
     ⟨some [("slide1_image1.png").toList], none, none⟩ ⟨[], [], []⟩
     (by decide) (by decide)
     (tempDirOf ("out").toList ("ch1/mod1.pptx").toList) (by decide)⟩

/-! ## C7: `make_s3_key` (main.py 119-142) -/

/-- The backslash normalization of main.py 122. -/
def normSlash (p : PStr) : PStr := p.map (fun c => if c == '\\' then '/' else c)

/-- Python's non-overlapping left-to-right `key.replace("//", "/")`
(main.py 139): after consuming a `//` the scan resumes after the replacement,
so `///` leaves `//` behind. -/
def dedup2 : PStr → PStr
  | [] => []
  | [c] => [c]
  | a :: b :: rest =>
      if a == '/' && b == '/' then '/' :: dedup2 rest
      else a :: dedup2 (b :: rest)

/-- Model of `make_s3_key` (main.py 119-142).  `os.path.basename` applied to
the bare media filename is `ntpath.basename` on the Windows deployment
platform, splitting on both separators. -/
def make_s3_key (ppt_relative_path filename media_type : PStr) : PStr :=
  dedup2
    (if dirnameL (normSlash ppt_relative_path) ≠ [] then
      ("PPT/").toList ++ (dirnameL (normSlash ppt_relative_path) ++
        '/' :: (splitextStem (basenameL (normSlash ppt_relative_path)) ++
        '/' :: (media_type ++ '/' :: ntBasenameL filename)))
    else
      ("PPT/").toList ++ (splitextStem (basenameL (normSlash ppt_relative_path)) ++
        '/' :: (media_type ++ '/' :: ntBasenameL filename)))

/-- C7 counterexample: for the relative path `a///b/c.pptx` the single
replacement pass leaves a double slash in the key, so the claim that every
derived key contains no double slashes is false. -/
theorem C7_counterexample :
    make_s3_key ("a///b/c.pptx").toList ("f.png").toList ("images").toList =
      ("PPT/a//b/c/images/f.png").toList ∧
    hasDD (make_s3_key ("a///b/c.pptx").toList ("f.png").toList ("images").toList) = true := by
  constructor <;> decide

theorem startsSlash_append (xs ys : PStr) (h : xs ≠ []) :
    startsSlash (xs ++ ys) = startsSlash xs := by
  cases xs with
  | nil => exact absurd rfl h
  | cons c t => rfl

theorem endsSlash_append (xs ys : PStr) (h : ys ≠ []) :
    endsSlash (xs ++ ys) = endsSlash ys := by
  unfold endsSlash
  rw [List.reverse_append]
  apply startsSlash_append
  intro hrev
  exact h (by simpa using congrArg List.reverse hrev)

theorem hasDD_append (xs ys : PStr) :
    hasDD (xs ++ ys) = (hasDD xs || hasDD ys || (endsSlash xs && startsSlash ys)) := by
  induction xs with
  | nil => simp [hasDD, endsSlash, startsSlash]
  | cons a xs ih =>
      cases xs with
      | nil =>
          cases ys with
          | nil => simp [hasDD, endsSlash, startsSlash]
          | cons b t =>
              show hasDD (a :: b :: t) = _
              simp only [hasDD, endsSlash, startsSlash, List.reverse_cons, List.reverse_nil,
                List.nil_append]
              cases h1 : (a == '/') <;> cases h2 : (b == '/') <;>
                cases h3 : hasDD (b :: t) <;> simp
      | cons b r =>
          have he : endsSlash (a :: b :: r) = endsSlash (b :: r) := by
            have h := endsSlash_append [a] (b :: r) (by simp)
            simpa using h
          have hL : hasDD ((a :: b :: r) ++ ys) = ((a == '/' && b == '/') || hasDD ((b :: r) ++ ys)) := by
            show hasDD (a :: b :: (r ++ ys)) = _
            simp [hasDD]
          rw [hL, ih]
          have hR : hasDD (a :: b :: r) = ((a == '/' && b == '/') || hasDD (b :: r)) := by
            simp [hasDD]
          rw [hR, he]
          cases hA : (a == '/' && b == '/') <;> cases hB : hasDD (b :: r) <;>
            cases hC : hasDD ys <;> cases hD : (endsSlash (b :: r) && startsSlash ys) <;> simp

theorem hasDD_of_append_eq_false (d t : PStr) (h : hasDD (d ++ t) = false) :
    hasDD d = false := by
  rw [hasDD_append] at h
  exact (Bool.or_eq_false_iff.mp (Bool.or_eq_false_iff.mp h).1).1

theorem all_reverse_eq (l : PStr) (q : Char → Bool) : l.reverse.all q = l.all q := by
  induction l with
  | nil => rfl
  | cons c t ih => simp [List.all_append, ih, Bool.and_comm]

theorem startsSlash_of_noSlash (l : PStr) (h : l.all (fun c => !(c == '/')) = true) :
    startsSlash l = false := by
  cases l with
  | nil => rfl
  | cons c t =>
      simp only [List.all_cons, Bool.and_eq_true, Bool.not_eq_true'] at h
      exact h.1

theorem endsSlash_of_noSlash (l : PStr) (h : l.all (fun c => !(c == '/')) = true) :
    endsSlash l = false := by
  unfold endsSlash
  apply startsSlash_of_noSlash
  rw [all_reverse_eq]
  exact h

theorem hasDD_of_noSlash (l : PStr) (h : l.all (fun c => !(c == '/')) = true) :
    hasDD l = false := by
  induction l with
  | nil => rfl
  | cons a t ih =>
      cases t with
      | nil => rfl
      | cons b r =>
          simp only [List.all_cons, Bool.and_eq_true, Bool.not_eq_true'] at h
          have hall : (b :: r).all (fun c => !(c == '/')) = true := by
            simp only [List.all_cons, Bool.and_eq_true, Bool.not_eq_true']
            exact ⟨h.2.1, h.2.2⟩
          simp [hasDD, h.1, ih hall]

theorem dedup2_of_noDD (l : PStr) (h : hasDD l = false) : dedup2 l = l := by
  induction l with
  | nil => rfl
  | cons a t ih =>
      cases t with
      | nil => rfl
      | cons b r =>
          simp only [hasDD] at h
          have hcond := (Bool.or_eq_false_iff.mp h).1
          have ht := (Bool.or_eq_false_iff.mp h).2
          simp [dedup2, hcond, ih ht]

theorem startsSlash_dropWhile_slash (l : PStr) :
    startsSlash (l.dropWhile (fun c => c == '/')) = false := by
  induction l with
  | nil => rfl
  | cons c t ih =>
      rw [List.dropWhile_cons]
      cases hcc : (c == '/')
      · rw [if_neg (by simp [hcc])]
        exact hcc
      · rw [if_pos (by simp [hcc])]
        exact ih

theorem all_and_left (l : PStr) (p q : Char → Bool)
    (h : l.all (fun c => p c && q c) = true) : l.all p = true := by
  rw [List.all_eq_true] at h ⊢
  intro c hc
  have h2 := h c hc
  simp only [Bool.and_eq_true] at h2
  exact h2.1

theorem all_and_right (l : PStr) (p q : Char → Bool)
    (h : l.all (fun c => p c && q c) = true) : l.all q = true := by
  rw [List.all_eq_true] at h ⊢
  intro c hc
  have h2 := h c hc
  simp only [Bool.and_eq_true] at h2
  exact h2.2

theorem all_takeWhile_of_all (l : PStr) (q p : Char → Bool) (h : l.all q = true) :
    (l.takeWhile p).all q = true := by
  rw [List.all_eq_true] at h ⊢
  intro c hc
  apply h
  have hsplit : l.takeWhile p ++ l.dropWhile p = l := List.takeWhile_append_dropWhile p l
  rw [← hsplit]
  exact List.mem_append_left _ hc

theorem all_splitextStem (b : PStr) (q : Char → Bool) (h : b.all q = true) :
    (splitextStem b).all q = true := by
  unfold splitextStem
  split
  · rename_i stemRev heq
    by_cases hany : stemRev.any (fun c => !(c == '.')) = true
    · rw [if_pos hany, all_reverse_eq]
      have hsuf : b.reverse.dropWhile (fun c => !(c == '.')) <:+ b.reverse :=
        List.dropWhile_suffix _
      obtain ⟨t, ht⟩ := hsuf
      rw [heq] at ht
      have hrev : b.reverse.all q = true := by rw [all_reverse_eq]; exact h
      rw [← ht] at hrev
      simp only [List.all_append, List.all_cons, Bool.and_eq_true] at hrev
      exact hrev.2.2
    · rw [if_neg hany]
      exact h
  · exact h

theorem splitextStem_ne_nil (b : PStr) (hb : b ≠ []) : splitextStem b ≠ [] := by
  unfold splitextStem
  split
  · rename_i stemRev heq
    by_cases hany : stemRev.any (fun c => !(c == '.')) = true
    · rw [if_pos hany]
      intro hnil
      have hsr : stemRev = [] := by simpa using congrArg List.reverse hnil
      rw [hsr] at hany
      simp at hany
    · rw [if_neg hany]
      exact hb
  · exact hb

theorem mem_takeWhile_pred (q : Char → Bool) :
    ∀ (l : List Char) (c : Char), c ∈ l.takeWhile q → q c = true := by
  intro l
  induction l with
  | nil => intro c hc; simp [List.takeWhile] at hc
  | cons a t ih =>
      intro c hc
      rw [List.takeWhile_cons] at hc
      by_cases ha : q a = true
      · rw [if_pos ha] at hc
        rcases List.mem_cons.mp hc with rfl | hc2
        · exact ha
        · exact ih c hc2
      · rw [if_neg ha] at hc
        simp at hc

theorem basenameL_all_noSlash (p : PStr) :
    (basenameL p).all (fun c => !(c == '/')) = true := by
  unfold basenameL
  rw [all_reverse_eq, List.all_eq_true]
  intro c hc
  exact mem_takeWhile_pred (fun c => !(c == '/')) p.reverse c hc

theorem basenameL_all_of_all (p : PStr) (q : Char → Bool) (h : p.all q = true) :
    (basenameL p).all q = true := by
  unfold basenameL
  rw [all_reverse_eq]
  apply all_takeWhile_of_all
  rw [all_reverse_eq]
  exact h

theorem basenameL_ne_nil (p : PStr) (hp : p ≠ []) (he : endsSlash p = false) :
    basenameL p ≠ [] := by
  unfold basenameL
  intro h
  have h2 : p.reverse.takeWhile (fun c => !(c == '/')) = [] := by
    simpa using congrArg List.reverse h
  cases hr : p.reverse with
  | nil => exact hp (by simpa using congrArg List.reverse hr)
  | cons c t =>
      rw [hr] at h2
      unfold endsSlash at he
      rw [hr] at he
      have hc : (c == '/') = false := he
      rw [List.takeWhile_cons, hc] at h2
      simp at h2

theorem ntBasenameL_all (p : PStr) :
    (ntBasenameL p).all (fun c => !(c == '/') && !(c == '\\')) = true := by
  unfold ntBasenameL
  rw [all_reverse_eq, List.all_eq_true]
  intro c hc
  exact mem_takeWhile_pred (fun c => !(c == '/') && !(c == '\\')) p.reverse c hc

theorem normSlash_all_noBackslash (p : PStr) :
    (normSlash p).all (fun c => !(c == '\\')) = true := by
  unfold normSlash
  rw [List.all_eq_true]
  intro c hc
  rw [List.mem_map] at hc
  obtain ⟨a, _, rfl⟩ := hc
  cases ha : (a == '\\') <;> simp [ha]

theorem startsSlash_true_of_all_slash (l : PStr) (hne : l ≠ [])
    (h : l.all (fun c => c == '/') = true) : startsSlash l = true := by
  cases l with
  | nil => exact absurd rfl hne
  | cons c t =>
      simp only [List.all_cons, Bool.and_eq_true] at h
      exact h.1

theorem dirnameL_clean (n : PStr) (h1 : hasDD n = false) (h2 : startsSlash n = false)
    (hd : dirnameL n ≠ []) :
    hasDD (dirnameL n) = false ∧ startsSlash (dirnameL n) = false ∧
      endsSlash (dirnameL n) = false ∧ ∃ u, dirnameL n ++ u = n := by
  unfold dirnameL at hd ⊢
  by_cases hX : n.reverse.dropWhile (fun c => !(c == '/')) = []
  · rw [if_pos hX] at hd
    exact absurd rfl hd
  · rw [if_neg hX] at hd ⊢
    obtain ⟨t, ht⟩ := (List.dropWhile_suffix (fun c => !(c == '/')) :
      n.reverse.dropWhile (fun c => !(c == '/')) <:+ n.reverse)
    have hXrevne : (n.reverse.dropWhile (fun c => !(c == '/'))).reverse ≠ [] := by
      intro hcon
      exact hX (by simpa using congrArg List.reverse hcon)
    have hn : n = (n.reverse.dropWhile (fun c => !(c == '/'))).reverse ++ t.reverse := by
      have h := congrArg List.reverse ht
      simp only [List.reverse_append, List.reverse_reverse] at h
      exact h.symm
    have hnall : (n.reverse.dropWhile (fun c => !(c == '/'))).all (fun c => c == '/') = false := by
      by_contra hcon
      rw [Bool.not_eq_false] at hcon
      have hall2 :
          ((n.reverse.dropWhile (fun c => !(c == '/'))).reverse).all (fun c => c == '/') = true := by
        rw [all_reverse_eq]
        exact hcon
      have hstart := startsSlash_true_of_all_slash _ hXrevne hall2
      rw [hn, startsSlash_append _ _ hXrevne, hstart] at h2
      exact Bool.noConfusion h2
    rw [if_neg (by simp [hnall])] at hd ⊢
    obtain ⟨t1, ht1⟩ := (List.dropWhile_suffix (fun c => c == '/') :
      (n.reverse.dropWhile (fun c => !(c == '/'))).dropWhile (fun c => c == '/') <:+
        n.reverse.dropWhile (fun c => !(c == '/')))
    have hcomb : (t ++ t1) ++
        (n.reverse.dropWhile (fun c => !(c == '/'))).dropWhile (fun c => c == '/') = n.reverse := by
      rw [List.append_assoc, ht1, ht]
    have hn2 :
        ((n.reverse.dropWhile (fun c => !(c == '/'))).dropWhile (fun c => c == '/')).reverse ++
          (t1.reverse ++ t.reverse) = n := by
      have h := congrArg List.reverse hcomb
      simp only [List.reverse_append, List.reverse_reverse] at h
      exact h
    have hDD : hasDD
        ((n.reverse.dropWhile (fun c => !(c == '/'))).dropWhile (fun c => c == '/')).reverse =
        false := by
      apply hasDD_of_append_eq_false _ (t1.reverse ++ t.reverse)
      rw [hn2]
      exact h1
    have hS : startsSlash
        ((n.reverse.dropWhile (fun c => !(c == '/'))).dropWhile (fun c => c == '/')).reverse =
        false := by
      rw [← hn2, startsSlash_append _ _ hd] at h2
      exact h2
    have hE : endsSlash
        ((n.reverse.dropWhile (fun c => !(c == '/'))).dropWhile (fun c => c == '/')).reverse =
        false := by
      unfold endsSlash
      rw [List.reverse_reverse]
      exact startsSlash_dropWhile_slash _
    exact ⟨hDD, hS, hE, ⟨t1.reverse ++ t.reverse, hn2⟩⟩

theorem all_chain4 (q : Char → Bool) (A d st mt cf : PStr) (hq : q '/' = true)
    (hA : A.all q = true) (hd : d.all q = true) (hst : st.all q = true)
    (hmt : mt.all q = true) (hcf : cf.all q = true) :
    (A ++ (d ++ '/' :: (st ++ '/' :: (mt ++ '/' :: cf)))).all q = true := by
  rw [List.all_eq_true]
  intro c hc
  rcases List.mem_append.mp hc with hc | hc
  · exact List.all_eq_true.mp hA c hc
  rcases List.mem_append.mp hc with hc | hc
  · exact List.all_eq_true.mp hd c hc
  rcases List.mem_cons.mp hc with rfl | hc
  · exact hq
  rcases List.mem_append.mp hc with hc | hc
  · exact List.all_eq_true.mp hst c hc
  rcases List.mem_cons.mp hc with rfl | hc
  · exact hq
  rcases List.mem_append.mp hc with hc | hc
  · exact List.all_eq_true.mp hmt c hc
  rcases List.mem_cons.mp hc with rfl | hc
  · exact hq
  exact List.all_eq_true.mp hcf c hc

theorem all_chain3 (q : Char → Bool) (A st mt cf : PStr) (hq : q '/' = true)
    (hA : A.all q = true) (hst : st.all q = true)
    (hmt : mt.all q = true) (hcf : cf.all q = true) :
    (A ++ (st ++ '/' :: (mt ++ '/' :: cf))).all q = true := by
  rw [List.all_eq_true]
  intro c hc
  rcases List.mem_append.mp hc with hc | hc
  · exact List.all_eq_true.mp hA c hc
  rcases List.mem_append.mp hc with hc | hc
  · exact List.all_eq_true.mp hst c hc
  rcases List.mem_cons.mp hc with rfl | hc
  · exact hq
  rcases List.mem_append.mp hc with hc | hc
  · exact List.all_eq_true.mp hmt c hc
  rcases List.mem_cons.mp hc with rfl | hc
  · exact hq
  exact List.all_eq_true.mp hcf c hc

/-- C7 (amended): storage key derivation is a pure function of its three
arguments (it is a mathematical function by construction), and for every
normalized relative path that is a proper relative file path — nonempty, no
consecutive separators, not beginning and not ending with a separator, exactly
the shape `os.path.relpath` produces — and media type `images` or `gifs`, the
derived key starts with `PPT/`, contains no backslash and no double slash.
(The double-slash-freedom fails for degenerate paths with separator runs,
see the counterexample.) -/
theorem C7_amended_key_clean (p f mt : PStr)
    (h1 : hasDD (normSlash p) = false)
    (h2 : startsSlash (normSlash p) = false)
    (h3 : endsSlash (normSlash p) = false)
    (h4 : normSlash p ≠ [])
    (h5 : mt = ("images").toList ∨ mt = ("gifs").toList) :
    startsWithL ("PPT/").toList (make_s3_key p f mt) = true ∧
    hasDD (make_s3_key p f mt) = false ∧
    (make_s3_key p f mt).all (fun c => !(c == '\\')) = true := by
  have hmtD : hasDD mt = false := by rcases h5 with h5 | h5 <;> subst h5 <;> decide
  have hmtS : startsSlash mt = false := by rcases h5 with h5 | h5 <;> subst h5 <;> decide
  have hmtE : endsSlash mt = false := by rcases h5 with h5 | h5 <;> subst h5 <;> decide
  have hmtNe : mt ≠ [] := by rcases h5 with h5 | h5 <;> subst h5 <;> simp
  have hmtB : mt.all (fun c => !(c == '\\')) = true := by
    rcases h5 with h5 | h5 <;> subst h5 <;> decide
  have hbAll : (basenameL (normSlash p)).all (fun c => !(c == '/')) = true :=
    basenameL_all_noSlash _
  have hstAll : (splitextStem (basenameL (normSlash p))).all (fun c => !(c == '/')) = true :=
    all_splitextStem _ _ hbAll
  have hstNe : splitextStem (basenameL (normSlash p)) ≠ [] :=
    splitextStem_ne_nil _ (basenameL_ne_nil _ h4 h3)
  have hstS : startsSlash (splitextStem (basenameL (normSlash p))) = false :=
    startsSlash_of_noSlash _ hstAll
  have hstE : endsSlash (splitextStem (basenameL (normSlash p))) = false :=
    endsSlash_of_noSlash _ hstAll
  have hstD : hasDD (splitextStem (basenameL (normSlash p))) = false :=
    hasDD_of_noSlash _ hstAll
  have hcfAll := ntBasenameL_all f
  have hcfS : startsSlash (ntBasenameL f) = false :=
    startsSlash_of_noSlash _ (all_and_left _ _ _ hcfAll)
  have hcfD : hasDD (ntBasenameL f) = false :=
    hasDD_of_noSlash _ (all_and_left _ _ _ hcfAll)
  have hcfB : (ntBasenameL f).all (fun c => !(c == '\\')) = true :=
    all_and_right _ _ _ hcfAll
  have hstBAll : (splitextStem (basenameL (normSlash p))).all (fun c => !(c == '\\')) = true :=
    all_splitextStem _ _ (basenameL_all_of_all _ _ (normSlash_all_noBackslash p))
  have hT3D : hasDD ('/' :: ntBasenameL f) = false := by
    rw [show ('/' :: ntBasenameL f) = ['/'] ++ ntBasenameL f from rfl, hasDD_append, hcfD, hcfS]
    simp [hasDD, endsSlash, startsSlash]
  have hT2D : hasDD (mt ++ '/' :: ntBasenameL f) = false := by
    rw [hasDD_append, hmtD, hT3D, hmtE]
    simp
  have hT2S : startsSlash (mt ++ '/' :: ntBasenameL f) = false := by
    rw [startsSlash_append _ _ hmtNe, hmtS]
  have hT1D : hasDD ('/' :: (mt ++ '/' :: ntBasenameL f)) = false := by
    rw [show ('/' :: (mt ++ '/' :: ntBasenameL f)) = ['/'] ++ (mt ++ '/' :: ntBasenameL f)
        from rfl, hasDD_append, hT2D, hT2S]
    simp [hasDD, endsSlash, startsSlash]
  have hT0D : hasDD (splitextStem (basenameL (normSlash p)) ++
      '/' :: (mt ++ '/' :: ntBasenameL f)) = false := by
    rw [hasDD_append, hstD, hT1D, hstE]
    simp
  have hT0S : startsSlash (splitextStem (basenameL (normSlash p)) ++
      '/' :: (mt ++ '/' :: ntBasenameL f)) = false := by
    rw [startsSlash_append _ _ hstNe, hstS]
  by_cases hdir : dirnameL (normSlash p) ≠ []
  · obtain ⟨hdD, hdS, hdE, u, hu⟩ := dirnameL_clean (normSlash p) h1 h2 hdir
    have hdB : (dirnameL (normSlash p)).all (fun c => !(c == '\\')) = true := by
      have hfull := normSlash_all_noBackslash p
      rw [← hu, List.all_append, Bool.and_eq_true] at hfull
      exact hfull.1
    have hS1D : hasDD ('/' :: (splitextStem (basenameL (normSlash p)) ++
        '/' :: (mt ++ '/' :: ntBasenameL f))) = false := by
      rw [show ('/' :: (splitextStem (basenameL (normSlash p)) ++
          '/' :: (mt ++ '/' :: ntBasenameL f))) =
          ['/'] ++ (splitextStem (basenameL (normSlash p)) ++
          '/' :: (mt ++ '/' :: ntBasenameL f)) from rfl, hasDD_append, hT0D, hT0S]
      simp [hasDD, endsSlash, startsSlash]
    have hS0D : hasDD (dirnameL (normSlash p) ++
        '/' :: (splitextStem (basenameL (normSlash p)) ++
        '/' :: (mt ++ '/' :: ntBasenameL f))) = false := by
      rw [hasDD_append, hdD, hS1D, hdE]
      simp
    have hS0S : startsSlash (dirnameL (normSlash p) ++
        '/' :: (splitextStem (basenameL (normSlash p)) ++
        '/' :: (mt ++ '/' :: ntBasenameL f))) = false := by
      rw [startsSlash_append _ _ hdir, hdS]
    have hkey0D : hasDD (("PPT/").toList ++ (dirnameL (normSlash p) ++
        '/' :: (splitextStem (basenameL (normSlash p)) ++
        '/' :: (mt ++ '/' :: ntBasenameL f)))) = false := by
      rw [hasDD_append, hS0D, hS0S]
      decide
    unfold make_s3_key
    rw [if_pos hdir, dedup2_of_noDD _ hkey0D]
    refine ⟨startsWithL_append_self _ _, hkey0D, ?_⟩
    exact all_chain4 _ _ _ _ _ _ (by decide) (by decide) hdB hstBAll hmtB hcfB
  · have hkey0D : hasDD (("PPT/").toList ++
        (splitextStem (basenameL (normSlash p)) ++
        '/' :: (mt ++ '/' :: ntBasenameL f))) = false := by
      rw [hasDD_append, hT0D, hT0S]
      decide
    unfold make_s3_key
    rw [if_neg hdir, dedup2_of_noDD _ hkey0D]
    refine ⟨startsWithL_append_self _ _, hkey0D, ?_⟩
    exact all_chain3 _ _ _ _ _ (by decide) (by decide) hstBAll hmtB hcfB

/-- C7 witness: the amended theorem at a concrete normalized relative path. -/
theorem C7_amended_key_clean_witness :
    hasDD (normSlash ("ch1/mod1.pptx").toList) = false ∧
    normSlash ("ch1/mod1.pptx").toList ≠ [] ∧
    startsWithL ("PPT/").toList
      (make_s3_key ("ch1/mod1.pptx").toList ("slide1_img.png").toList ("images").toList) = true ∧
    hasDD (make_s3_key ("ch1/mod1.pptx").toList ("slide1_img.png").toList
      ("images").toList) = false :=
  ⟨by decide, by decide,
   (C7_amended_key_clean ("ch1/mod1.pptx").toList ("slide1_img.png").toList ("images").toList
     (by decide) (by decide) (by decide) (by decide) (Or.inl rfl)).1,
   (C7_amended_key_clean ("ch1/mod1.pptx").toList ("slide1_img.png").toList ("images").toList
     (by decide) (by decide) (by decide) (by decide) (Or.inl rfl)).2.1⟩

end PptPipeline
